import Mathlib

/-!
Verification of the ASUS multi-label text classifier core: a shallow
embedding of the CAML convolutional label-wise attention network
(src/network/caml.py, src/network/base.py) and of the training loop and
checkpoint lifecycle controller (src/model.py), with theorems settling the
specified properties against these definitions.

Real-valued tensor computations are embedded as functions on `Fin`-indexed
families over `ℝ`; the training controller, whose decisions only compare
scalar metric values, is embedded over `ℚ` so that concrete runs can be
evaluated by `decide`.
-/

namespace Asus

/-- Output length of `nn.Conv1d` with `kernel_size = K`, stride 1, dilation 1
and symmetric `padding = floor(K / 2)` (src/network/caml.py line 19) applied
to a sequence of length `S`: `S + 2 * (K / 2) - (K - 1)`. -/
def convOutLen (S K : ℕ) : ℕ := S + 2 * (K / 2) + 1 - K

/-- Learned parameters of `CamlConvAttnPool` (src/network/caml.py):
the embedding table (from `BaseModel`), the `conv` layer weight and bias,
the attention context matrix `U.weight`, and the per-label classifier
`final.weight` / `final.bias`.  Dimensions: `V` vocabulary size, `E`
embedding width, `F = num_filter_maps`, `L = num_class`,
`K = filter_size`. -/
structure CamlWeights (V E F L K : ℕ) where
  embed : Fin V → Fin E → ℝ
  convW : Fin F → Fin E → Fin K → ℝ
  convB : Fin F → ℝ
  uW : Fin L → Fin F → ℝ
  finalW : Fin L → Fin F → ℝ
  finalB : Fin L → ℝ

/-- One forward-pass input: a batch (size `B`) of token-id sequences of
length `S`, together with the elementwise dropout factor applied by
`self.embed_drop` (all ones in eval mode; `0` or `1/(1-p)` per entry in
train mode — the theorems hold for every mask). -/
structure CamlInput (B S V E : ℕ) where
  text : Fin B → Fin S → Fin V
  mask : Fin B → Fin S → Fin E → ℝ

noncomputable section

/-- `x = self.embed_drop(self.embedding(text))`: table lookup followed by the
elementwise dropout factor (src/network/base.py, src/network/caml.py line 32). -/
def embedDrop {V E B S : ℕ} {F L K : ℕ} (w : CamlWeights V E F L K)
    (inp : CamlInput B S V E) (b : Fin B) (s : Fin S) (c : Fin E) : ℝ :=
  inp.mask b s c * w.embed (inp.text b s) c

/-- Zero padding of a length-`S` channel: value at position `j` of the padded
sequence (padding `pad` on each side). -/
def padSeq {S : ℕ} (pad : ℕ) (v : Fin S → ℝ) (j : ℕ) : ℝ :=
  if h : pad ≤ j ∧ j - pad < S then v ⟨j - pad, h.2⟩ else 0

/-- `self.conv(x)`: 1-d convolution over the sequence axis with symmetric
padding `K / 2` (src/network/caml.py lines 19 and 37); output position `t`
of channel `f`. -/
def camlConv {V E F L K B S : ℕ} (w : CamlWeights V E F L K)
    (inp : CamlInput B S V E) (b : Fin B) (f : Fin F)
    (t : Fin (convOutLen S K)) : ℝ :=
  w.convB f +
    ∑ c : Fin E, ∑ k : Fin K,
      w.convW f c k * padSeq (K / 2) (fun s => embedDrop w inp b s c) (t.1 + k.1)

/-- `x = torch.tanh(self.conv(x).transpose(1,2))` (src/network/caml.py line 37). -/
def camlH {V E F L K B S : ℕ} (w : CamlWeights V E F L K)
    (inp : CamlInput B S V E) (b : Fin B) (f : Fin F)
    (t : Fin (convOutLen S K)) : ℝ :=
  Real.tanh (camlConv w inp b f t)

/-- `torch.softmax(·, dim)` along one axis of length `n`. -/
def softmax {n : ℕ} (v : Fin n → ℝ) (i : Fin n) : ℝ :=
  Real.exp (v i) / ∑ j, Real.exp (v j)

/-- Raw attention score `U.weight.matmul(x.transpose(1,2))` at
`(b, label, position)` (src/network/caml.py line 43). -/
def camlScore {V E F L K B S : ℕ} (w : CamlWeights V E F L K)
    (inp : CamlInput B S V E) (b : Fin B) (l : Fin L)
    (t : Fin (convOutLen S K)) : ℝ :=
  ∑ f, w.uW l f * camlH w inp b f t

/-- `alpha = torch.softmax(U.weight.matmul(x.transpose(1,2)), dim=2)`:
softmax over the sequence-length axis, independently per label
(src/network/caml.py line 43). -/
def camlAlpha {V E F L K B S : ℕ} (w : CamlWeights V E F L K)
    (inp : CamlInput B S V E) (b : Fin B) (l : Fin L) :
    Fin (convOutLen S K) → ℝ :=
  softmax (camlScore w inp b l)

/-- `m = alpha.matmul(x)`: per-label document vector, the attention-weighted
sum of the per-position features (src/network/caml.py line 46). -/
def camlM {V E F L K B S : ℕ} (w : CamlWeights V E F L K)
    (inp : CamlInput B S V E) (b : Fin B) (l : Fin L) (f : Fin F) : ℝ :=
  ∑ t, camlAlpha w inp b l t * camlH w inp b f t

/-- `x = self.final.weight.mul(m).sum(dim=2).add(self.final.bias)`
(src/network/caml.py line 49): the per-label logit. -/
def camlLogits {V E F L K B S : ℕ} (w : CamlWeights V E F L K)
    (inp : CamlInput B S V E) (b : Fin B) (l : Fin L) : ℝ :=
  (∑ f, w.finalW l f * camlM w inp b l f) + w.finalB l

/-- `torch.sigmoid` on a scalar. -/
def sigmoid (z : ℝ) : ℝ := 1 / (1 + Real.exp (-z))

/-- Spec §4.4, stated in the spec's words: "The logit for label ℓ is computed
as an elementwise product of the classifier weight vector for ℓ with the
label's document vector `m[ℓ]`, summed over the feature axis, plus the bias
for ℓ."  Used as the refinement target for the code's `camlLogits`. -/
def specPerLabelLogit {F L : ℕ} (weight : Fin L → Fin F → ℝ)
    (bias : Fin L → ℝ) (mv : Fin L → Fin F → ℝ) (l : Fin L) : ℝ :=
  (∑ f, weight l f * mv l f) + bias l

/-- All-zero weights at the smallest dimensions; concrete instance used by
witnesses. -/
def cwOne : CamlWeights 1 1 1 1 1 :=
  ⟨fun _ _ => 0, fun _ _ _ => 0, fun _ => 0, fun _ _ => 0,
   fun _ _ => 0, fun _ => 0⟩

/-- Trivial concrete forward-pass input used by witnesses. -/
def ciOne : CamlInput 1 1 1 1 :=
  ⟨fun _ _ => 0, fun _ _ _ => 1⟩

end

/-- The configuration options of src/model.py that the training loop and the
checkpoint manager read (`ArgDict` in the source; metric values as `ℚ`). -/
structure Config where
  run_name : String
  result_dir : String
  optimizer : String
  learning_rate : ℚ
  momentum : ℚ
  weight_decay : ℚ
  epochs : ℕ
  patience : ℕ
deriving DecidableEq

/-- One call to `Model.save(epoch, is_best)` as observed during
`Model.train`: the epoch number, whether the "best" checkpoint was also
written, and the value of `self.best_metric` at the moment of saving. -/
structure SaveEvent where
  epoch : ℕ
  isBest : Bool
  bestMetric : ℚ
deriving DecidableEq

/-- The `while` loop of `Model.train` (src/model.py lines 96-119).  `fuel`
counts the epochs still allowed by `epoch <= self.config.epochs`;
`metrics e` is the validation metric `dev_metrics[0][val_metric]` evaluated
at epoch `e`.  Returns the final `self.best_metric` and the list of save
events in order.  Epoch `e` improves iff `metrics e >= best` (inclusive):
then the best metric is updated, a best checkpoint saved, and patience reset
to `cfgPatience`; otherwise only the last checkpoint is saved and patience
drops by 1.  The loop stops when `patience = 0` or the fuel runs out. -/
def trainLoop (metrics : ℕ → ℚ) (cfgPatience : ℕ) :
    ℕ → ℕ → ℕ → ℚ → ℚ × List SaveEvent
  | 0, _, _, best => (best, [])
  | fuel + 1, epoch, patience, best =>
    if patience = 0 then (best, [])
    else if best ≤ metrics epoch then
      let r := trainLoop metrics cfgPatience fuel (epoch + 1) cfgPatience (metrics epoch)
      (r.1, ⟨epoch, true, metrics epoch⟩ :: r.2)
    else
      let r := trainLoop metrics cfgPatience fuel (epoch + 1) (patience - 1) best
      (r.1, ⟨epoch, false, best⟩ :: r.2)

/-- `Model.train`: the loop starts at `self.start_epoch + 1` with
`patience = self.config.patience` and runs while `epoch <= config.epochs`. -/
def modelTrain (metrics : ℕ → ℚ) (cfg : Config) (startEpoch : ℕ)
    (best0 : ℚ) : ℚ × List SaveEvent :=
  trainLoop metrics cfg.patience (cfg.epochs - startEpoch) (startEpoch + 1)
    cfg.patience best0

/-- The epoch number recorded in a save event. -/
def epochOf (s : SaveEvent) : ℕ := s.epoch

/-- The validation metric observed at the epoch of a save event. -/
def metricAt (metrics : ℕ → ℚ) (s : SaveEvent) : ℚ := metrics s.epoch

/-- The checkpoint dictionary written by `Model.save`
(src/model.py lines 208-216).  `P` is the type of network state dicts, `O`
of optimizer state dicts, `W` of vocabularies, `C` of label sets. -/
structure Ckpt (P O W C : Type) where
  epoch : ℕ
  run_name : String
  state_dict : P
  word_dict : W
  classes : C
  optimizer : O
  best_metric : ℚ

/-- The resumable state held by a `Model` instance (src/model.py). -/
structure ModelState (P O W C : Type) where
  config : Config
  word_dict : W
  classes : C
  best_metric : ℚ
  start_epoch : ℕ
  network : P
  optimizer_state : O

/-- The checkpoint record built by `Model.save(epoch)`
(src/model.py lines 208-216). -/
def modelSaveCkpt {P O W C : Type} (m : ModelState P O W C) (epoch : ℕ) :
    Ckpt P O W C :=
  { epoch := epoch
    run_name := m.config.run_name
    state_dict := m.network
    word_dict := m.word_dict
    classes := m.classes
    optimizer := m.optimizer_state
    best_metric := m.best_metric }

/-- The `ckpt` branch of `Model.__init__` (src/model.py lines 34-39 and
62-64), as invoked by `Model.load`: the configuration's `run_name` is
overwritten by the checkpoint's, vocabulary, label set, best metric and
epoch counter are restored, and the network and optimizer state dicts are
loaded. -/
def modelInitFromCkpt {P O W C : Type} (config : Config)
    (ckpt : Ckpt P O W C) : ModelState P O W C :=
  { config := { config with run_name := ckpt.run_name }
    word_dict := ckpt.word_dict
    classes := ckpt.classes
    best_metric := ckpt.best_metric
    start_epoch := ckpt.epoch
    network := ckpt.state_dict
    optimizer_state := ckpt.optimizer }

/-- `os.path.join(config.result_dir, config.run_name, 'model_last.pt')`
(src/model.py lines 217-218). -/
def lastCkptPath (cfg : Config) : String :=
  cfg.result_dir ++ "/" ++ cfg.run_name ++ "/model_last.pt"

/-- `ckpt_path.replace('last', 'best')` (src/model.py line 223): every
occurrence of the substring `last` in the full last-checkpoint path is
replaced. -/
def bestCkptPath (cfg : Config) : String :=
  (lastCkptPath cfg).replace "last" "best"

/-- The file-system effect of `Model.save(epoch, is_best)`
(src/model.py lines 206-226): `torch.save` writes the checkpoint record at
the "last" path, then, when `is_best`, `shutil.copyfile` duplicates the
content currently stored at the "last" path to the "best" path. -/
def modelSaveToFS {P O W C : Type} (fs : String → Option (Ckpt P O W C))
    (m : ModelState P O W C) (epoch : ℕ) (isBest : Bool) :
    String → Option (Ckpt P O W C) :=
  let ckpt := modelSaveCkpt m epoch
  let p := lastCkptPath m.config
  let fs1 : String → Option (Ckpt P O W C) :=
    fun q => if q = p then some ckpt else fs q
  if isBest then
    let bp := bestCkptPath m.config
    fun q => if q = bp then fs1 p else fs1 q
  else fs1

/-- The optimizer objects `Model.init_optimizer` can construct
(src/model.py lines 73-78). -/
inductive OptimizerS
  | sgd (lr momentum weight_decay : ℚ)
  | adam (lr weight_decay : ℚ)
deriving DecidableEq

/-- `Model.init_optimizer` (src/model.py lines 66-83): chooses the optimizer
by name (`optimizer or self.config.optimizer`), returning a fatal
`RuntimeError` for any name other than `sgd` or `adam`. -/
def init_optimizer (cfg : Config) (optimizer : Option String) :
    Except String OptimizerS :=
  let optimizer_name := optimizer.getD cfg.optimizer
  if optimizer_name = "sgd" then
    Except.ok (OptimizerS.sgd cfg.learning_rate cfg.momentum cfg.weight_decay)
  else if optimizer_name = "adam" then
    Except.ok (OptimizerS.adam cfg.learning_rate cfg.weight_decay)
  else
    Except.error ("Unsupported optimizer: " ++ cfg.optimizer)

/-- The fresh (non-resumed) branch of `Model.__init__`
(src/model.py lines 40-60): `best_metric = 0`, `start_epoch = 0`, the
network is built externally (`get_network`) and `init_optimizer` is called;
an unsupported optimizer name aborts construction, so no model state is
produced. -/
def modelInitFresh {P O W C : Type} (cfg : Config) (word_dict : W)
    (classes : C) (network : P) (opt_state : O) :
    Except String (ModelState P O W C) :=
  match init_optimizer cfg none with
  | Except.error e => Except.error e
  | Except.ok _ =>
    Except.ok
      { config := cfg
        word_dict := word_dict
        classes := classes
        best_metric := 0
        start_epoch := 0
        network := network
        optimizer_state := opt_state }

/-- The gradient-related operations a `Model` method performs, in source
order; used to state where gradient clipping happens. -/
inductive TrainOp
  | setTrainMode
  | moveToDevice
  | forwardPass
  | computeBceLoss
  | sigmoidScores
  | zeroGrad
  | backward
  | clipGradValue (bound : ℚ)
  | optimizerStep
deriving DecidableEq

/-- The operations performed by `Model.train_step`
(src/model.py lines 144-166), in source order: train mode, device transfer,
forward, BCE loss, sigmoid scores, `optimizer.zero_grad()`,
`loss.backward()`, `optimizer.step()`.  No gradient clipping occurs. -/
def trainStepOps : List TrainOp :=
  [TrainOp.setTrainMode, TrainOp.moveToDevice, TrainOp.forwardPass,
   TrainOp.computeBceLoss, TrainOp.sigmoidScores,
   TrainOp.zeroGrad, TrainOp.backward, TrainOp.optimizerStep]

/-- The gradient-related operation performed once at the end of
`Model.init_optimizer` (src/model.py line 83):
`torch.nn.utils.clip_grad_value_(parameters, 0.5)`. -/
def initOptimizerOps : List TrainOp := [TrainOp.clipGradValue (1 / 2)]

/-- Constant validation-metric functions used by witnesses. -/
def constMetricOne : ℕ → ℚ := fun _ => 1

/-- Constant zero validation metric used by witnesses. -/
def constMetricZero : ℕ → ℚ := fun _ => 0

/-- Concrete configuration used by witnesses (early stopping). -/
def cfgStop : Config :=
  { run_name := "run", result_dir := "results", optimizer := "sgd",
    learning_rate := 1 / 100, momentum := 0, weight_decay := 0,
    epochs := 3, patience := 1 }

/-- Concrete configuration used by witnesses (improvement / best metric). -/
def cfgBest : Config :=
  { run_name := "run", result_dir := "results", optimizer := "adam",
    learning_rate := 1 / 100, momentum := 0, weight_decay := 0,
    epochs := 1, patience := 1 }

/-- Concrete configuration used by witnesses (resume round trip). -/
def cfgResume : Config :=
  { run_name := "run", result_dir := "results", optimizer := "adam",
    learning_rate := 1 / 100, momentum := 0, weight_decay := 0,
    epochs := 10, patience := 2 }

/-- Concrete configuration with an optimizer name outside {sgd, adam}. -/
def cfgRms : Config :=
  { run_name := "run", result_dir := "results", optimizer := "rmsprop",
    learning_rate := 1 / 100, momentum := 0, weight_decay := 0,
    epochs := 3, patience := 1 }

/-- Concrete model state used by witnesses. -/
def msResume : ModelState ℕ ℕ ℕ ℕ :=
  { config := cfgResume, word_dict := 7, classes := 3,
    best_metric := 1 / 2, start_epoch := 2, network := 11,
    optimizer_state := 13 }

/-! ### Helper lemmas -/

/-- Softmax along a nonempty axis sums to 1. -/
theorem softmax_sum_one {n : ℕ} (hn : 0 < n) (v : Fin n → ℝ) :
    (∑ i, softmax v i) = 1 := by
  have : Nonempty (Fin n) := Fin.pos_iff_nonempty.mp hn
  have hpos : 0 < ∑ j, Real.exp (v j) :=
    Finset.sum_pos (fun j _ => Real.exp_pos _) Finset.univ_nonempty
  unfold softmax
  rw [← Finset.sum_div, div_self (ne_of_gt hpos)]

/-- Each softmax weight is nonnegative. -/
theorem softmax_nonneg {n : ℕ} (v : Fin n → ℝ) (i : Fin n) :
    0 ≤ softmax v i := by
  have hden : 0 ≤ ∑ j, Real.exp (v j) :=
    Finset.sum_nonneg fun j _ => (Real.exp_pos _).le
  exact div_nonneg (Real.exp_pos _).le hden

/-- The sigmoid of any real number lies in the closed unit interval. -/
theorem sigmoid_mem_unit (z : ℝ) : 0 ≤ sigmoid z ∧ sigmoid z ≤ 1 := by
  have hpos : 0 < 1 + Real.exp (-z) := by positivity
  constructor
  · exact div_nonneg zero_le_one hpos.le
  · rw [sigmoid, div_le_one hpos]
    linarith [Real.exp_pos (-z)]

/-! ### Claims about the network forward pass -/

/-- C1: for every input batch, document `b` and label `l`, the attention
weights produced by the forward pass form a probability distribution over
the sequence positions (softmax over the sequence-length axis, independently
per label): they are nonnegative and sum to 1, and the label's document
vector is the attention-weighted sum of the per-position features. -/
theorem caml_attention_is_distribution {V E F L K B S : ℕ}
    (w : CamlWeights V E F L K) (inp : CamlInput B S V E)
    (hT : 0 < convOutLen S K) (b : Fin B) (l : Fin L) :
    (∀ t, 0 ≤ camlAlpha w inp b l t) ∧
    (∑ t, camlAlpha w inp b l t) = 1 ∧
    (∀ f, camlM w inp b l f = ∑ t, camlAlpha w inp b l t * camlH w inp b f t) :=
  ⟨fun t => softmax_nonneg _ t, softmax_sum_one hT _, fun _ => rfl⟩

/-- Witness for C1 at the smallest concrete dimensions. -/
theorem caml_attention_is_distribution_witness :
    0 < convOutLen 1 1 ∧
    (∑ t, camlAlpha cwOne ciOne 0 0 t) = 1 :=
  ⟨by decide,
   (caml_attention_is_distribution cwOne ciOne (by decide) 0 0).2.1⟩

/-- C2: the forward pass returns one logit per (document, label) pair — a
`Fin B → Fin L → ℝ` family, i.e. shape `B × L` — where the logit for label
`l` is the elementwise product of label `l`'s classifier weight row with
that label's document vector, summed over the feature axis, plus label `l`'s
bias (the per-label dot product of spec §4.4); the sigmoid of every logit
lies in `[0, 1]`. -/
theorem caml_logits_per_label_and_sigmoid {V E F L K B S : ℕ}
    (w : CamlWeights V E F L K) (inp : CamlInput B S V E) :
    (∀ (b : Fin B) (l : Fin L),
        camlLogits w inp b l
          = specPerLabelLogit w.finalW w.finalB (camlM w inp b) l) ∧
    (∀ (b : Fin B) (l : Fin L),
        0 ≤ sigmoid (camlLogits w inp b l) ∧
        sigmoid (camlLogits w inp b l) ≤ 1) :=
  ⟨fun _ _ => rfl, fun b l => sigmoid_mem_unit (camlLogits w inp b l)⟩

/-- C9 counterexample: with an even `filter_size` the convolution of
src/network/caml.py does not preserve sequence length — at
`filter_size = 2` and sequence length 20 it produces 21 positions, so the
claim's "for every configured filter_size" fails. -/
theorem caml_conv_even_filter_counterexample : convOutLen 20 2 ≠ 20 := by
  decide

/-- C9 (amended to odd filter sizes): for every odd `filter_size`, the
convolution with symmetric padding `floor(filter_size / 2)` preserves
sequence length, and each position's features pass through `tanh`; in the
spec's concrete scenario (`filter_size = 3`, batch 4, 5 labels, sequence
length 20) the attention weights live over exactly 20 positions and sum to
1 for every (document, label) pair, i.e. they have shape `(4, 5, 20)`. -/
theorem caml_conv_preserves_length_odd :
    (∀ S K : ℕ, K % 2 = 1 → convOutLen S K = S) ∧
    (∀ (V E F L K B S : ℕ) (w : CamlWeights V E F L K)
        (inp : CamlInput B S V E) (b : Fin B) (f : Fin F)
        (t : Fin (convOutLen S K)),
        camlH w inp b f t = Real.tanh (camlConv w inp b f t)) ∧
    convOutLen 20 3 = 20 ∧
    (∀ (w : CamlWeights 1000 50 100 5 3) (inp : CamlInput 4 20 1000 50)
        (b : Fin 4) (l : Fin 5),
        (∑ t, camlAlpha w inp b l t) = 1) := by
  refine ⟨fun S K hK => ?_, fun _ _ _ _ _ _ _ _ _ _ _ _ => rfl, by decide,
          fun w inp b l => softmax_sum_one (by decide) _⟩
  unfold convOutLen
  omega

/-- Witness for C9 at `filter_size = 3`, sequence length 20. -/
theorem caml_conv_preserves_length_odd_witness :
    (3 : ℕ) % 2 = 1 ∧ convOutLen 20 3 = 20 :=
  ⟨by decide, caml_conv_preserves_length_odd.1 20 3 (by decide)⟩

/-! ### Claims about saving, loading and initialization -/

/-- C6: whenever `Model.save` runs with `is_best` true, afterwards the file
at the "best" path holds exactly the content of the file just written at the
"last" path — the same checkpoint record, duplicated by `shutil.copyfile`,
not re-serialized — so "best" and "last" are identical at the moment of
improvement. -/
theorem save_best_copies_last {P O W C : Type}
    (fs : String → Option (Ckpt P O W C)) (m : ModelState P O W C)
    (epoch : ℕ) :
    modelSaveToFS fs m epoch true (bestCkptPath m.config)
      = modelSaveToFS fs m epoch true (lastCkptPath m.config) ∧
    modelSaveToFS fs m epoch true (lastCkptPath m.config)
      = some (modelSaveCkpt m epoch) := by
  unfold modelSaveToFS
  constructor
  · by_cases h : lastCkptPath m.config = bestCkptPath m.config <;>
      simp [h]
  · by_cases h : lastCkptPath m.config = bestCkptPath m.config <;>
      simp [h]

/-- C7 (code bug): `Model.train_step` performs no gradient clipping between
`loss.backward()` and `optimizer.step()` — nor anywhere else; the only call
to `clip_grad_value_` in src/model.py happens once at the end of
`init_optimizer`, before any gradient exists.  The spec's per-step clipping
is absent from the training step. -/
theorem train_step_never_clips :
    (∀ bound : ℚ, TrainOp.clipGradValue bound ∉ trainStepOps) ∧
    TrainOp.backward ∈ trainStepOps ∧
    TrainOp.optimizerStep ∈ trainStepOps ∧
    TrainOp.clipGradValue (1 / 2) ∈ initOptimizerOps := by
  refine ⟨fun bound => ?_, by decide, by decide, by simp [initOptimizerOps]⟩
  simp [trainStepOps]

/-- C8: a configuration whose optimizer name is neither `sgd` nor `adam`
makes model initialization fail with the fatal `Unsupported optimizer`
configuration error, and no model state is constructed. -/
theorem unsupported_optimizer_fails {P O W C : Type} (cfg : Config)
    (word_dict : W) (classes : C) (network : P) (opt_state : O)
    (h1 : cfg.optimizer ≠ "sgd") (h2 : cfg.optimizer ≠ "adam") :
    modelInitFresh cfg word_dict classes network opt_state
      = (Except.error ("Unsupported optimizer: " ++ cfg.optimizer) :
          Except String (ModelState P O W C)) := by
  unfold modelInitFresh init_optimizer
  simp [Option.getD, h1, h2]

/-- Witness for C8 with the optimizer name `rmsprop`. -/
theorem unsupported_optimizer_fails_witness :
    modelInitFresh cfgRms (7 : ℕ) (3 : ℕ) (11 : ℕ) (13 : ℕ)
      = (Except.error ("Unsupported optimizer: " ++ cfgRms.optimizer) :
          Except String (ModelState ℕ ℕ ℕ ℕ)) :=
  unsupported_optimizer_fails cfgRms 7 3 11 13 (by decide) (by decide)

/-- C10: a model constructed from a checkpoint overwrites the passed
configuration's `run_name` with the checkpoint's, so its checkpoint paths —
and the `run_name` recorded by every subsequent save — use the checkpoint's
original run name, regardless of the `run_name` in the configuration given
to `Model.load`. -/
theorem load_overwrites_run_name {P O W C : Type} (cfg : Config)
    (ckpt : Ckpt P O W C) (N : ℕ) :
    (modelInitFromCkpt cfg ckpt).config.run_name = ckpt.run_name ∧
    lastCkptPath (modelInitFromCkpt cfg ckpt).config
      = cfg.result_dir ++ "/" ++ ckpt.run_name ++ "/model_last.pt" ∧
    (modelSaveCkpt (modelInitFromCkpt cfg ckpt) N).run_name = ckpt.run_name :=
  ⟨rfl, rfl, rfl⟩

/-! ### Training-loop lemmas -/

/-- The seed is bounded by a `max` fold over any list. -/
theorem init_le_foldl_max (l : List ℚ) : ∀ b : ℚ, b ≤ l.foldl max b := by
  induction l with
  | nil => intro b; exact le_refl b
  | cons a t ih =>
    intro b
    calc b ≤ max b a := le_max_left _ _
      _ ≤ t.foldl max (max b a) := ih _

/-- Every member of a list is bounded by a `max` fold over it. -/
theorem mem_le_foldl_max (l : List ℚ) :
    ∀ (b x : ℚ), x ∈ l → x ≤ l.foldl max b := by
  induction l with
  | nil => intro b x hx; cases hx
  | cons a t ih =>
    intro b x hx
    rcases List.mem_cons.mp hx with h | h
    · subst h
      calc x ≤ max b x := le_max_right _ _
        _ ≤ t.foldl max (max b x) := init_le_foldl_max t _
    · exact ih _ x h

/-- A `max` fold equals its seed or one of the list elements. -/
theorem foldl_max_mem (l : List ℚ) :
    ∀ b : ℚ, l.foldl max b = b ∨ l.foldl max b ∈ l := by
  induction l with
  | nil => intro b; exact Or.inl rfl
  | cons a t ih =>
    intro b
    rcases ih (max b a) with h | h
    · rcases max_cases b a with ⟨he, _⟩ | ⟨he, _⟩
      · exact Or.inl (by rw [List.foldl_cons, h, he])
      · refine Or.inr (List.mem_cons.mpr (Or.inl ?_))
        rw [List.foldl_cons, h, he]
    · exact Or.inr (List.mem_cons.mpr (Or.inr h))

/-- The final `best_metric` of the training loop is the `max` fold of the
metrics observed at the evaluated epochs over the initial best metric. -/
theorem trainLoop_fst_eq_foldl (metrics : ℕ → ℚ) (cp : ℕ) :
    ∀ (fuel e p : ℕ) (b : ℚ),
      (trainLoop metrics cp fuel e p b).1
        = ((trainLoop metrics cp fuel e p b).2.map
            (metricAt metrics)).foldl max b := by
  intro fuel
  induction fuel with
  | zero => intro e p b; simp [trainLoop]
  | succ f ih =>
    intro e p b
    rw [trainLoop]
    by_cases hp : p = 0
    · simp [hp]
    · rw [if_neg hp]
      by_cases himp : b ≤ metrics e
      · rw [if_pos himp]
        simp only [List.map_cons, List.foldl_cons, metricAt]
        rw [max_eq_right himp]
        exact ih (e + 1) cp (metrics e)
      · rw [if_neg himp]
        simp only [List.map_cons, List.foldl_cons, metricAt]
        rw [max_eq_left (le_of_lt (lt_of_not_le himp))]
        exact ih (e + 1) (p - 1) b

/-- C3: at every epoch's evaluation decision, a metric `≥` the best so far
(ties included) updates the best metric, saves a best checkpoint and resets
patience to the configured maximum; otherwise only a last checkpoint is
saved and patience drops by exactly 1.  Consequently, from a fresh start
(`best_metric = 0`) with nonnegative metric values, the stored best metric
after any number of epochs is the maximum metric observed over all
evaluated epochs: it bounds every observed value and is attained at one of
them. -/
theorem train_decision_and_best_metric :
    (∀ (metrics : ℕ → ℚ) (cp fuel e p : ℕ) (b : ℚ),
        p ≠ 0 → b ≤ metrics e →
        trainLoop metrics cp (fuel + 1) e p b
          = ((trainLoop metrics cp fuel (e + 1) cp (metrics e)).1,
             ⟨e, true, metrics e⟩ ::
               (trainLoop metrics cp fuel (e + 1) cp (metrics e)).2)) ∧
    (∀ (metrics : ℕ → ℚ) (cp fuel e p : ℕ) (b : ℚ),
        p ≠ 0 → metrics e < b →
        trainLoop metrics cp (fuel + 1) e p b
          = ((trainLoop metrics cp fuel (e + 1) (p - 1) b).1,
             ⟨e, false, b⟩ ::
               (trainLoop metrics cp fuel (e + 1) (p - 1) b).2)) ∧
    (∀ (metrics : ℕ → ℚ) (cfg : Config) (start : ℕ),
        (∀ e, 0 ≤ metrics e) →
        (∀ s ∈ (modelTrain metrics cfg start 0).2,
            metrics s.epoch ≤ (modelTrain metrics cfg start 0).1) ∧
        ((modelTrain metrics cfg start 0).2 ≠ [] →
            (modelTrain metrics cfg start 0).1
              ∈ (modelTrain metrics cfg start 0).2.map (metricAt metrics))) := by
  refine ⟨?_, ?_, ?_⟩
  · intro metrics cp fuel e p b hp himp
    rw [trainLoop, if_neg hp, if_pos himp]
  · intro metrics cp fuel e p b hp himp
    rw [trainLoop, if_neg hp, if_neg (not_le.mpr himp)]
  · intro metrics cfg start hpos
    have hfold := trainLoop_fst_eq_foldl metrics cfg.patience
      (cfg.epochs - start) (start + 1) cfg.patience 0
    constructor
    · intro s hs
      rw [modelTrain, hfold]
      exact mem_le_foldl_max _ 0 (metrics s.epoch)
        (List.mem_map.mpr ⟨s, hs, rfl⟩)
    · intro hne
      rw [modelTrain, hfold]
      set l : List ℚ :=
        (trainLoop metrics cfg.patience (cfg.epochs - start) (start + 1)
          cfg.patience 0).2.map (metricAt metrics) with hl
      rcases foldl_max_mem l 0 with h0 | hmem
      · have hlne : l ≠ [] := by
          rw [hl]
          intro hcon
          exact hne (List.map_eq_nil_iff.mp hcon)
        obtain ⟨x, hx⟩ := List.exists_mem_of_ne_nil l hlne
        have hx0 : 0 ≤ x := by
          rw [hl] at hx
          obtain ⟨s, _, hsx⟩ := List.mem_map.mp hx
          rw [← hsx]
          exact hpos s.epoch
        have hxle : x ≤ l.foldl max 0 := mem_le_foldl_max l 0 x hx
        rw [h0] at hxle
        have : x = 0 := le_antisymm hxle hx0
        rw [h0, ← this]
        exact hx
      · exact hmem

/-- Witness for C3: an improving first epoch (metric 1 ≥ best 0) and the
resulting best metric. -/
theorem train_decision_and_best_metric_witness :
    trainLoop constMetricOne 2 1 0 1 0
      = ((trainLoop constMetricOne 2 0 1 2 1).1,
         ⟨0, true, 1⟩ :: (trainLoop constMetricOne 2 0 1 2 1).2) ∧
    constMetricOne 1 ≤ (modelTrain constMetricOne cfgBest 0 0).1 :=
  ⟨by
    have h := train_decision_and_best_metric.1 constMetricOne 2 0 0 1 0
      (by decide) (by decide)
    simpa [constMetricOne] using h,
   (train_decision_and_best_metric.2.2 constMetricOne cfgBest 0
      (fun _ => by norm_num [constMetricOne])).1
     ⟨1, true, 1⟩ (by decide)⟩

/-- With zero patience the loop saves nothing and keeps the best metric. -/
theorem trainLoop_pat_zero (metrics : ℕ → ℚ) (cp : ℕ) :
    ∀ (fuel e : ℕ) (b : ℚ), trainLoop metrics cp fuel e 0 b = (b, []) := by
  intro fuel e b
  cases fuel with
  | zero => rfl
  | succ f => rw [trainLoop, if_pos rfl]

/-- Every save event of the loop lies in the epoch window
`[e, e + fuel)`. -/
theorem trainLoop_epoch_bounds (metrics : ℕ → ℚ) (cp : ℕ) :
    ∀ (fuel e p : ℕ) (b : ℚ) (s : SaveEvent),
      s ∈ (trainLoop metrics cp fuel e p b).2 →
      e ≤ s.epoch ∧ s.epoch < e + fuel := by
  intro fuel
  induction fuel with
  | zero => intro e p b s hs; simp [trainLoop] at hs
  | succ f ih =>
    intro e p b s hs
    rw [trainLoop] at hs
    by_cases hp : p = 0
    · rw [if_pos hp] at hs; simp at hs
    · rw [if_neg hp] at hs
      by_cases himp : b ≤ metrics e
      · rw [if_pos himp] at hs
        simp only [List.mem_cons] at hs
        rcases hs with h | h
        · rw [h]
          exact ⟨le_refl e, show e < e + (f + 1) by omega⟩
        · have := ih (e + 1) cp (metrics e) s h
          omega
      · rw [if_neg himp] at hs
        simp only [List.mem_cons] at hs
        rcases hs with h | h
        · rw [h]
          exact ⟨le_refl e, show e < e + (f + 1) by omega⟩
        · have := ih (e + 1) (p - 1) b s h
          omega

/-- The first `j` save events of the loop have epoch below `e + j`. -/
theorem trainLoop_take_epochs (metrics : ℕ → ℚ) (cp : ℕ) :
    ∀ (j fuel e p : ℕ) (b : ℚ) (s : SaveEvent),
      s ∈ List.take j (trainLoop metrics cp fuel e p b).2 →
      s.epoch < e + j := by
  intro j
  induction j with
  | zero => intro fuel e p b s hs; simp at hs
  | succ j ih =>
    intro fuel e p b s hs
    cases fuel with
    | zero => simp [trainLoop] at hs
    | succ f =>
      rw [trainLoop] at hs
      by_cases hp : p = 0
      · rw [if_pos hp] at hs; simp at hs
      · rw [if_neg hp] at hs
        by_cases himp : b ≤ metrics e
        · rw [if_pos himp] at hs
          simp only [List.take_succ_cons, List.mem_cons] at hs
          rcases hs with h | h
          · rw [h]
            exact show e < e + (j + 1) by omega
          · have := ih f (e + 1) cp (metrics e) s h
            omega
        · rw [if_neg himp] at hs
          simp only [List.take_succ_cons, List.mem_cons] at hs
          rcases hs with h | h
          · rw [h]
            exact show e < e + (j + 1) by omega
          · have := ih f (e + 1) (p - 1) b s h
            omega

/-- Dropping `j` save events from the loop's output yields the output of
the loop restarted at epoch `e + j` from some intermediate patience (never
above the configured maximum) and best metric. -/
theorem trainLoop_drop_decomp (metrics : ℕ → ℚ) (cp : ℕ) :
    ∀ (j fuel e p : ℕ) (b : ℚ), p ≤ cp →
      ∃ p' b', p' ≤ cp ∧
        List.drop j (trainLoop metrics cp fuel e p b).2
          = (trainLoop metrics cp (fuel - j) (e + j) p' b').2 := by
  intro j
  induction j with
  | zero =>
    intro fuel e p b hp
    exact ⟨p, b, hp, by simp⟩
  | succ j ih =>
    intro fuel e p b hp
    cases fuel with
    | zero =>
      refine ⟨0, b, Nat.zero_le cp, ?_⟩
      rw [trainLoop_pat_zero]
      simp [trainLoop]
    | succ f =>
      by_cases hp0 : p = 0
      · refine ⟨0, b, Nat.zero_le cp, ?_⟩
        rw [trainLoop, if_pos hp0, trainLoop_pat_zero]
        simp
      · rw [trainLoop, if_neg hp0]
        by_cases himp : b ≤ metrics e
        · rw [if_pos himp]
          obtain ⟨p', b', hp', heq⟩ := ih f (e + 1) cp (metrics e) (le_refl cp)
          refine ⟨p', b', hp', ?_⟩
          have h1 : f + 1 - (j + 1) = f - j := Nat.succ_sub_succ f j
          have h2 : e + (j + 1) = e + 1 + j := by omega
          rw [h1, h2, List.drop_succ_cons, heq]
        · rw [if_neg himp]
          obtain ⟨p', b', hp', heq⟩ := ih f (e + 1) (p - 1) b (by omega)
          refine ⟨p', b', hp', ?_⟩
          have h1 : f + 1 - (j + 1) = f - j := Nat.succ_sub_succ f j
          have h2 : e + (j + 1) = e + 1 + j := by omega
          rw [h1, h2, List.drop_succ_cons, heq]

/-- If the loop's own first `p` epochs (starting at its start epoch `e`)
all fail to improve, the loop executes no epoch at or beyond `e + p`. -/
theorem trainLoop_stop_after_fails (metrics : ℕ → ℚ) (cp : ℕ) :
    ∀ (fuel e p : ℕ) (b : ℚ),
      (∀ i, i < p → ∃ s, s ∈ (trainLoop metrics cp fuel e p b).2 ∧
          s.epoch = e + i ∧ s.isBest = false) →
      ∀ s, s ∈ (trainLoop metrics cp fuel e p b).2 → s.epoch < e + p := by
  intro fuel
  induction fuel with
  | zero => intro e p b _ s hs; simp [trainLoop] at hs
  | succ f ih =>
    intro e p b hwin s hs
    by_cases hp : p = 0
    · rw [hp, trainLoop_pat_zero] at hs; simp at hs
    · rw [trainLoop, if_neg hp] at hs hwin
      by_cases himp : b ≤ metrics e
      · rw [if_pos himp] at hs hwin
        exfalso
        obtain ⟨s0, hs0mem, hs0e, hs0b⟩ := hwin 0 (Nat.pos_of_ne_zero hp)
        simp only [List.mem_cons] at hs0mem
        rcases hs0mem with h | h
        · rw [h] at hs0b; simp at hs0b
        · have := trainLoop_epoch_bounds metrics cp f (e + 1) cp
            (metrics e) s0 h
          omega
      · rw [if_neg himp] at hs hwin
        simp only [List.mem_cons] at hs
        rcases hs with h | h
        · rw [h]
          simp only []
          omega
        · have hwin' : ∀ i, i < p - 1 →
              ∃ s, s ∈ (trainLoop metrics cp f (e + 1) (p - 1) b).2 ∧
                s.epoch = e + 1 + i ∧ s.isBest = false := by
            intro i hi
            obtain ⟨s1, hs1mem, hs1e, hs1b⟩ := hwin (i + 1) (by omega)
            simp only [List.mem_cons] at hs1mem
            rcases hs1mem with h1 | h1
            · exfalso
              rw [h1] at hs1e
              simp only [] at hs1e
              omega
            · exact ⟨s1, h1, by omega, hs1b⟩
          have := ih (e + 1) (p - 1) b hwin' s h
          omega

/-- C4: the training loop never executes an epoch numbered beyond the
configured maximum `cfg.epochs`, and once the validation metric has failed
to improve for `cfg.patience` consecutive epochs (epochs `e+1 … e+patience`
all saved without a best checkpoint) it executes no further epoch,
regardless of remaining epoch budget: every executed epoch is
`≤ e + patience`. -/
theorem train_early_stop_and_epoch_bound :
    (∀ (metrics : ℕ → ℚ) (cfg : Config) (start : ℕ) (b0 : ℚ)
        (s : SaveEvent), s ∈ (modelTrain metrics cfg start b0).2 →
        s.epoch ≤ cfg.epochs) ∧
    (∀ (metrics : ℕ → ℚ) (cfg : Config) (start : ℕ) (b0 : ℚ) (e : ℕ),
        1 ≤ cfg.patience →
        (∀ i, i < cfg.patience →
            ∃ s, s ∈ (modelTrain metrics cfg start b0).2 ∧
              s.epoch = e + 1 + i ∧ s.isBest = false) →
        ∀ s, s ∈ (modelTrain metrics cfg start b0).2 →
          s.epoch ≤ e + cfg.patience) := by
  constructor
  · intro metrics cfg start b0 s hs
    have := trainLoop_epoch_bounds metrics cfg.patience
      (cfg.epochs - start) (start + 1) cfg.patience b0 s hs
    omega
  · intro metrics cfg start b0 e hpat hwin s hs
    have hMT : (modelTrain metrics cfg start b0).2
        = (trainLoop metrics cfg.patience (cfg.epochs - start) (start + 1)
            cfg.patience b0).2 := rfl
    rw [hMT] at hwin hs
    obtain ⟨s0, hs0mem, hs0e, _⟩ := hwin 0 (by omega)
    have hs0lb := trainLoop_epoch_bounds metrics cfg.patience
      (cfg.epochs - start) (start + 1) cfg.patience b0 s0 hs0mem
    have hstart : start ≤ e := by omega
    obtain ⟨p', b', hp'le, hdrop⟩ :=
      trainLoop_drop_decomp metrics cfg.patience (e - start)
        (cfg.epochs - start) (start + 1) cfg.patience b0 (le_refl cfg.patience)
    have hj : start + 1 + (e - start) = e + 1 := by omega
    rw [hj] at hdrop
    have hsplit := List.take_append_drop (e - start)
      (trainLoop metrics cfg.patience (cfg.epochs - start) (start + 1)
        cfg.patience b0).2
    have hwin' : ∀ i, i < p' →
        ∃ t, t ∈ (trainLoop metrics cfg.patience
            (cfg.epochs - start - (e - start)) (e + 1) p' b').2 ∧
          t.epoch = e + 1 + i ∧ t.isBest = false := by
      intro i hi
      obtain ⟨t, htmem, hte, htb⟩ := hwin i (by omega)
      rw [← hsplit] at htmem
      rcases List.mem_append.mp htmem with h | h
      · exfalso
        have := trainLoop_take_epochs metrics cfg.patience (e - start)
          (cfg.epochs - start) (start + 1) cfg.patience b0 t h
        omega
      · rw [hdrop] at h
        exact ⟨t, h, hte, htb⟩
    have hsuffix := trainLoop_stop_after_fails metrics cfg.patience
      (cfg.epochs - start - (e - start)) (e + 1) p' b' hwin'
    rw [← hsplit] at hs
    rcases List.mem_append.mp hs with h | h
    · have := trainLoop_take_epochs metrics cfg.patience (e - start)
        (cfg.epochs - start) (start + 1) cfg.patience b0 s h
      omega
    · rw [hdrop] at h
      have := hsuffix s h
      omega

/-- Witness for C4: with patience 1, best 5 and constant metric 0 the loop
fails at epoch 1 and stops, executing no epoch beyond `0 + patience`, and
every executed epoch stays within the epoch budget. -/
theorem train_early_stop_and_epoch_bound_witness :
    (⟨1, false, (5 : ℚ)⟩ : SaveEvent).epoch ≤ 0 + cfgStop.patience ∧
    (⟨1, false, (5 : ℚ)⟩ : SaveEvent).epoch ≤ cfgStop.epochs :=
  ⟨train_early_stop_and_epoch_bound.2 constMetricZero cfgStop 0 5 0
      (by decide)
      (fun i hi => ⟨⟨1, false, 5⟩, by decide,
        by have h1 : cfgStop.patience = 1 := rfl
           have : i = 0 := by omega
           rw [this],
        rfl⟩)
      ⟨1, false, 5⟩ (by decide),
   train_early_stop_and_epoch_bound.1 constMetricZero cfgStop 0 5
      ⟨1, false, 5⟩ (by decide)⟩

/-- When fuel remains and patience is positive, the loop's first save event
is at its start epoch. -/
theorem trainLoop_head_epoch (metrics : ℕ → ℚ) (cp : ℕ) :
    ∀ (fuel e p : ℕ) (b : ℚ), fuel ≠ 0 → p ≠ 0 →
      ((trainLoop metrics cp fuel e p b).2.head?).map epochOf = some e := by
  intro fuel e p b hf hp
  cases fuel with
  | zero => exact absurd rfl hf
  | succ f =>
    rw [trainLoop, if_neg hp]
    by_cases himp : b ≤ metrics e
    · rw [if_pos himp]; rfl
    · rw [if_neg himp]; rfl

/-- C5: loading the checkpoint written by `save` at epoch `N` reproduces the
network parameters, optimizer state, vocabulary, label set and best metric
present immediately before saving, sets the epoch counter to `N`, and the
resumed training loop executes epoch `N + 1` first (not epoch 1). -/
theorem model_save_load_roundtrip {P O W C : Type} (cfg : Config)
    (m : ModelState P O W C) (N : ℕ) :
    (modelInitFromCkpt cfg (modelSaveCkpt m N)).network = m.network ∧
    (modelInitFromCkpt cfg (modelSaveCkpt m N)).optimizer_state
      = m.optimizer_state ∧
    (modelInitFromCkpt cfg (modelSaveCkpt m N)).word_dict = m.word_dict ∧
    (modelInitFromCkpt cfg (modelSaveCkpt m N)).classes = m.classes ∧
    (modelInitFromCkpt cfg (modelSaveCkpt m N)).best_metric = m.best_metric ∧
    (modelInitFromCkpt cfg (modelSaveCkpt m N)).start_epoch = N ∧
    (∀ metrics : ℕ → ℚ, N + 1 ≤ cfg.epochs → 1 ≤ cfg.patience →
        ((modelTrain metrics (modelInitFromCkpt cfg (modelSaveCkpt m N)).config
            (modelInitFromCkpt cfg (modelSaveCkpt m N)).start_epoch
            (modelInitFromCkpt cfg (modelSaveCkpt m N)).best_metric).2.head?).map
          epochOf = some (N + 1)) := by
  refine ⟨rfl, rfl, rfl, rfl, rfl, rfl, ?_⟩
  intro metrics hN hP
  exact trainLoop_head_epoch metrics cfg.patience (cfg.epochs - N) (N + 1)
    cfg.patience m.best_metric (by omega) (by omega)

/-- Witness for C5: saving at epoch 5 with budget 10 resumes at epoch 6. -/
theorem model_save_load_roundtrip_witness :
    (modelInitFromCkpt cfgResume (modelSaveCkpt msResume 5)).start_epoch = 5 ∧
    ((modelTrain constMetricZero
        (modelInitFromCkpt cfgResume (modelSaveCkpt msResume 5)).config
        (modelInitFromCkpt cfgResume (modelSaveCkpt msResume 5)).start_epoch
        (modelInitFromCkpt cfgResume (modelSaveCkpt msResume 5)).best_metric).2.head?).map
      epochOf = some 6 :=
  ⟨(model_save_load_roundtrip cfgResume msResume 5).2.2.2.2.2.1,
   (model_save_load_roundtrip cfgResume msResume 5).2.2.2.2.2.2
      constMetricZero (by decide) (by decide)⟩

end Asus
